import Mathlib

/-!
Shallow embedding of the Game of Life simulation core from `main.go` (and its
near-duplicate revisions `unnamed/part_000`, `unnamed/part_001`).

The Go grid is a flat `[]bool` slice of `logicalScreenHeight * logicalScreenWidth`
cells indexed by `index(x, y) = y*logicalScreenWidth + x`; the pattern buffer is a
flat `[]bool` slice indexed by `patternIndex(x, y) = y*patternWidth + x`.  Go slice
accesses panic when the index is out of `[0, len)`; fallible accesses are modeled
with `Option` (`none` = runtime panic).  Go `int` arithmetic on cursor coordinates
can go negative, so coordinates are `Int`.
-/

namespace GameOfLife

/-- `screenWidth = 1280` from the `const` block of `main.go`. -/
abbrev screenWidth : Nat := 1280

/-- `screenHeight = 960` from the `const` block of `main.go`. -/
abbrev screenHeight : Nat := 960

/-- `logicalScreenFactor = 2` from the `const` block of `main.go`. -/
abbrev logicalScreenFactor : Nat := 2

/-- `logicalScreenWidth = screenWidth / logicalScreenFactor` (= 640). -/
abbrev logicalScreenWidth : Nat := screenWidth / logicalScreenFactor

/-- `logicalScreenHeight = screenHeight / logicalScreenFactor` (= 480). -/
abbrev logicalScreenHeight : Nat := screenHeight / logicalScreenFactor

/-- `patternEditorScale = 20` from the `const` block. -/
abbrev patternEditorScale : Int := 20

/-- `time.Millisecond` in nanoseconds; `g.speed` counts milliseconds and the code
compares `timeDelta >= g.speed*time.Millisecond`. -/
abbrev timeMillisecond : Int := 1000000

/-- `func (g *Game) index(x, y int) int { return y*logicalScreenWidth + x }`.
Coordinates may be negative, so this is `Int`-valued. -/
def gridIndex (x y : Int) : Int := y * (logicalScreenWidth : Int) + x

/-- `func (g *Game) patternIndex(x, y int) int { return y*g.patternWidth + x }`
restricted to the non-negative arguments it is called with. -/
def patternIndex (pw x y : Nat) : Nat := y * pw + x

/-- A Go slice read `l[idx]`: panics (`none`) when `idx` is out of range. -/
def getCellChecked (l : List Bool) (idx : Nat) : Option Bool :=
  if idx < l.length then some (l.getD idx false) else none

/-- A Go slice write `l[idx] = v` at a possibly negative index: panics (`none`)
when `idx` is out of `[0, len)`. -/
def setCellChecked (l : List Bool) (idx : Int) (v : Bool) : Option (List Bool) :=
  if 0 ≤ idx ∧ idx < (l.length : Int) then some (l.set idx.toNat v) else none

/-- Row-major iteration order of the nested loops
`for i := 0; i < ph; i++ { for j := 0; j < pw; j++ { ... } }`. -/
def indexPairs (ph pw : Nat) : List (Nat × Nat) :=
  (List.range ph).flatMap (fun i => (List.range pw).map (fun j => (i, j)))

/-- The flat grid index targeted by the stamping loop body for loop counters
`p = (i, j)`: `g.index(x+j-g.patternWidth, y+i-g.patternHeight)`. -/
def stampTarget (pw ph : Nat) (x y : Int) (p : Nat × Nat) : Int :=
  gridIndex (x + p.2 - pw) (y + p.1 - ph)

/-- The body of the stamping loop in `Update` (`main.go` lines 131-135):
`g.cells[g.index(x+j-pw, y+i-ph)] = g.pattern[g.patternIndex(j, i)]`,
executed over the remaining loop-counter pairs.  Both the pattern read and the
grid write are unchecked Go slice accesses and therefore fallible. -/
def stampLoop (pat : List Bool) (pw ph : Nat) (x y : Int) :
    List Bool → List (Nat × Nat) → Option (List Bool)
  | cells, [] => some cells
  | cells, p :: rest =>
    match getCellChecked pat (patternIndex pw p.2 p.1) with
    | none => none
    | some v =>
      match setCellChecked cells (stampTarget pw ph x y p) v with
      | none => none
      | some cs => stampLoop pat pw ph x y cs rest

/-- Stamping the pattern buffer onto the grid at anchor `(x, y)`: the full
double loop from `Update`. -/
def stamp (cells pat : List Bool) (pw ph : Nat) (x y : Int) : Option (List Bool) :=
  stampLoop pat pw ph x y cells (indexPairs ph pw)

/-- A sequence of checked writes `(flat index, value)` applied left to right;
`none` as soon as one write is out of range.  `stampLoop` reduces to this once
all the pattern reads are known to be in range. -/
def applyWrites : List Bool → List (Int × Bool) → Option (List Bool)
  | cells, [] => some cells
  | cells, w :: rest =>
    match setCellChecked cells w.1 w.2 with
    | none => none
    | some cs => applyWrites cs rest

/-- The write sequence `stampLoop` performs, with the value of each pattern
read made explicit. -/
def stampWrites (pat : List Bool) (pw ph : Nat) (x y : Int) (l : List (Nat × Nat)) :
    List (Int × Bool) :=
  l.map (fun p => (stampTarget pw ph x y p, pat.getD (patternIndex pw p.2 p.1) false))

/-- The value left at key `k` after a write sequence, starting from default `d`
(last write wins). -/
def lastVal {α : Type} [DecidableEq α] (ws : List (α × Bool)) (k : α) (d : Bool) : Bool :=
  ws.foldl (fun acc w => if w.1 = k then w.2 else acc) d

/-- The nine loop-counter offsets of the neighbor-counting double loop
`for y := i-1; y <= i+1; y++ { for x := j-1; x <= j+1; x++ }`, as `(dy, dx)`. -/
def neighborOffsets : List (Int × Int) :=
  [(-1, -1), (-1, 0), (-1, 1), (0, -1), (0, 0), (0, 1), (1, -1), (1, 0), (1, 1)]

/-- The guard of the neighbor-counting loop body:
`x >= 0 && x < logicalScreenWidth && y >= 0 && y < logicalScreenHeight && !(x == j && y == i)`
followed by the read `g.cells[g.index(x, y)]`. -/
def neighborGuard (cells : List Bool) (j i : Int) (d : Int × Int) : Prop :=
  0 ≤ j + d.2 ∧ j + d.2 < (logicalScreenWidth : Int) ∧
  0 ≤ i + d.1 ∧ i + d.1 < (logicalScreenHeight : Int) ∧
  ¬(j + d.2 = j ∧ i + d.1 = i) ∧
  cells.getD (gridIndex (j + d.2) (i + d.1)).toNat false = true

instance (cells : List Bool) (j i : Int) : DecidablePred (neighborGuard cells j i) :=
  fun d => by unfold neighborGuard; infer_instance

/-- The neighbor counter of `Update` (`main.go` lines 154-163): `neighbors++`
for each of the nine offsets whose guard holds. -/
def neighborCount (cells : List Bool) (j i : Int) : Nat :=
  neighborOffsets.foldl (fun n d => if neighborGuard cells j i d then n + 1 else n) 0

/-- The rules-of-life branch of `Update` (`main.go` lines 164-178) deciding the
next state of cell `(j, i)` from the read-only snapshot `cells`. -/
def nextCellState (cells : List Bool) (j i : Int) : Bool :=
  let neighbors := neighborCount cells j i
  if cells.getD (gridIndex j i).toNat false = true then
    if neighbors < 2 ∨ neighbors > 3 then false else true
  else
    if neighbors = 3 then true else false

/-- One generation advance (`main.go` lines 148-182): a fresh buffer is filled
row-major with `nextCellState` of every coordinate, all computed from the old
`cells`, and replaces the grid.  Filling `cellsCopy[i*width+j]` over the double
loop produces exactly this row-major concatenation. -/
def advance (cells : List Bool) : List Bool :=
  ((List.range logicalScreenHeight).map (fun (i : Nat) =>
    (List.range logicalScreenWidth).map (fun (j : Nat) =>
      nextCellState cells (j : Int) (i : Int)))).flatten

/-- Reading grid cell `(x, y)` for in-range coordinates. -/
def getCell (cells : List Bool) (x y : Nat) : Bool :=
  cells.getD (y * logicalScreenWidth + x) false

/-- Whether coordinate `(x, y)` is on the grid and alive.  Follows the spec's
wording: off-grid coordinates "simply do not count". -/
def liveAt (cells : List Bool) (x y : Int) : Bool :=
  decide (0 ≤ x ∧ x < (logicalScreenWidth : Int) ∧ 0 ≤ y ∧ y < (logicalScreenHeight : Int)) &&
    cells.getD (gridIndex x y).toNat false

/-- Modelled from the spec wording of the neighbor rule: the number of live
cells among the 8 surrounding coordinates of `(j, i)` that lie within grid
bounds (no wraparound).  Compared against the code's `neighborCount`. -/
def specLiveNeighbors (cells : List Bool) (j i : Int) : Nat :=
  (liveAt cells (j - 1) (i - 1)).toNat + (liveAt cells j (i - 1)).toNat +
  (liveAt cells (j + 1) (i - 1)).toNat +
  (liveAt cells (j - 1) i).toNat + (liveAt cells (j + 1) i).toNat +
  (liveAt cells (j - 1) (i + 1)).toNat + (liveAt cells j (i + 1)).toNat +
  (liveAt cells (j + 1) (i + 1)).toNat

/-- The pattern-buffer fields of the `Game` struct. -/
structure PatternState where
  patternWidth : Nat
  patternHeight : Nat
  pattern : List Bool
deriving DecidableEq

/-- A sequence of (always in range) writes into a pattern buffer, applied left
to right with `List.set`. -/
def applySets (cells : List Bool) (ws : List (Nat × Bool)) : List Bool :=
  ws.foldl (fun cs w => cs.set w.1 w.2) cells

/-- The write sequence of the copy loop in `initPattern` (`main.go` lines
272-279): for each old-buffer coordinate pair `(i, j)` with `i < newHeight` and
`j < newWidth`, write `g.pattern[i*oldWidth+j]` to `newPattern[i*newWidth+j]`. -/
def copyWrites (old : List Bool) (ow oh w h : Nat) : List (Nat × Bool) :=
  (indexPairs oh ow).filterMap (fun p =>
    if p.1 < h ∧ p.2 < w then some (p.1 * w + p.2, old.getD (p.1 * ow + p.2) false) else none)

/-- `func (g *Game) initPattern(newWidth, newHeight int, keepPrevious bool)`
(`main.go` lines 263-284): clamp the requested dimensions up to 1, allocate a
zeroed buffer, optionally copy the overlap of the previous pattern, and replace
the buffer and dimensions. -/
def initPattern (g : PatternState) (newWidth newHeight : Int) (keepPrevious : Bool) :
    PatternState :=
  let w := (if newWidth < 1 then 1 else newWidth).toNat
  let h := (if newHeight < 1 then 1 else newHeight).toNat
  let base := List.replicate (h * w) false
  { patternWidth := w
    patternHeight := h
    pattern :=
      if keepPrevious then applySets base (copyWrites g.pattern g.patternWidth g.patternHeight w h)
      else base }

/-- The pattern-editor click handler (`main.go` line 120):
`g.pattern[g.patternIndex(x, y)] = !g.pattern[g.patternIndex(x, y)]`. -/
def togglePattern (g : PatternState) (x y : Nat) : PatternState :=
  { g with
    pattern := g.pattern.set (patternIndex g.patternWidth x y)
      (!(g.pattern.getD (patternIndex g.patternWidth x y) false)) }

/-- `func (g *Game) initGlider()` (`main.go` lines 286-299): a 3x3 buffer with
the five glider cells set alive. -/
def initGlider (g : PatternState) : PatternState :=
  let g1 := initPattern { g with patternWidth := 3, patternHeight := 3 } 3 3 false
  { g1 with
    pattern :=
      ((((g1.pattern.set (patternIndex 3 1 0) true).set (patternIndex 3 2 1) true).set
        (patternIndex 3 0 2) true).set (patternIndex 3 1 2) true).set (patternIndex 3 2 2) true }

/-- `func (g *Game) initCells()`: a zeroed grid of
`logicalScreenHeight*logicalScreenWidth` cells. -/
def initCells : List Bool := List.replicate (logicalScreenHeight * logicalScreenWidth) false

/-- The pattern buffer as set up by `main()`: dims 3x3, then `initGlider`. -/
def gliderState : PatternState :=
  initGlider { patternWidth := 3, patternHeight := 3, pattern := [] }

/-- Reading pattern-buffer cell `(x, y)` for in-range coordinates. -/
def getPattern (g : PatternState) (x y : Nat) : Bool :=
  g.pattern.getD (patternIndex g.patternWidth x y) false

/-- The generation-advance gate of `Update` (`main.go` line 139):
`if g.active && timeDelta >= g.speed*time.Millisecond` the grid is replaced by
the next generation, otherwise it is left untouched.  `timeDelta` and `speed`
are in nanoseconds resp. milliseconds, as in the source. -/
def advanceGate (active : Bool) (timeDelta speed : Int) (cells : List Bool) : List Bool :=
  if active = true ∧ speed * timeMillisecond ≤ timeDelta then advance cells else cells

/-- The editor-scale shrink loop of `initPattern` in `unnamed/part_000` (lines
296-304), generalized over its constants (`bw`/`bh` = new pattern dims,
`maxW`/`maxH` = `logicalScreenWidth`/`logicalScreenHeight`, `step` = 5, initial
`scale` = `patternEditorScale`):
`for { if bw*scale <= maxW && bh*scale <= maxH { break }; scale -= step }`.
The `fuel` argument makes the unbounded Go loop a total function; `none` means
the loop did not terminate within `fuel` iterations. -/
def computeScaleLoop (bw bh maxW maxH step : Int) : Nat → Int → Option Int
  | 0, _ => none
  | fuel + 1, scale =>
    if bw * scale ≤ maxW ∧ bh * scale ≤ maxH then some scale
    else computeScaleLoop bw bh maxW maxH step fuel (scale - step)

/-! ### Arithmetic and list helpers -/

theorem index_lt {x y w h : Nat} (hx : x < w) (hy : y < h) : y * w + x < h * w := by
  calc y * w + x < y * w + w := by omega
    _ = (y + 1) * w := by ring
    _ ≤ h * w := Nat.mul_le_mul_right w hy

theorem rowcol_inj {w a b c d : Nat} (hb : b < w) (hd : d < w)
    (h : a * w + b = c * w + d) : a = c ∧ b = d := by
  have hw : 0 < w := by omega
  have ha : a = (a * w + b) / w := by
    rw [Nat.mul_comm a w, Nat.mul_add_div hw, Nat.div_eq_of_lt hb]
    omega
  have hc : c = (c * w + d) / w := by
    rw [Nat.mul_comm c w, Nat.mul_add_div hw, Nat.div_eq_of_lt hd]
    omega
  have hac : a = c := by rw [ha, h, ← hc]
  subst hac
  exact ⟨rfl, Nat.add_left_cancel h⟩

theorem getD_set_self {l : List Bool} {i : Nat} {v : Bool} (h : i < l.length) :
    (l.set i v).getD i false = v := by
  simp [List.getD_eq_getElem?_getD, List.getElem?_set_self h]

theorem getD_set_ne {l : List Bool} {i k : Nat} {v : Bool} (h : i ≠ k) :
    (l.set i v).getD k false = l.getD k false := by
  simp [List.getD_eq_getElem?_getD, List.getElem?_set_ne h]

theorem set_getD_self {l : List Bool} {i : Nat} (h : i < l.length) :
    l.set i (l.getD i false) = l := by
  apply List.ext_getElem?
  intro n
  by_cases hn : i = n
  · subst hn
    rw [List.getElem?_set_self h, List.getD_eq_getElem?_getD, List.getElem?_eq_getElem h]
    rfl
  · rw [List.getElem?_set_ne hn]

theorem getD_replicate_false {n k : Nat} : (List.replicate n false).getD k false = false := by
  rw [List.getD_eq_getElem?_getD, List.getElem?_replicate]
  split <;> rfl

theorem list_eq_of_getD {l1 l2 : List Bool} (hlen : l1.length = l2.length)
    (h : ∀ k, l1.getD k false = l2.getD k false) : l1 = l2 := by
  apply List.ext_getElem hlen
  intro i h1 h2
  have hk := h i
  rwa [List.getD_eq_getElem?_getD, List.getD_eq_getElem?_getD, List.getElem?_eq_getElem h1,
    List.getElem?_eq_getElem h2] at hk

theorem mem_indexPairs {ph pw : Nat} {p : Nat × Nat} :
    p ∈ indexPairs ph pw ↔ p.1 < ph ∧ p.2 < pw := by
  obtain ⟨i, j⟩ := p
  simp only [indexPairs, List.mem_flatMap, List.mem_map, List.mem_range, Prod.mk.injEq]
  constructor
  · rintro ⟨a, ha, b, hb, rfl, rfl⟩
    exact ⟨ha, hb⟩
  · rintro ⟨hi, hj⟩
    exact ⟨i, hi, j, hj, rfl, rfl⟩

/-! ### `lastVal` lemmas -/

theorem lastVal_cons {α : Type} [DecidableEq α] (w : α × Bool) (ws : List (α × Bool))
    (k : α) (d : Bool) :
    lastVal (w :: ws) k d = lastVal ws k (if w.1 = k then w.2 else d) := rfl

theorem lastVal_not_touch {α : Type} [DecidableEq α] {ws : List (α × Bool)} {k : α}
    (h : ∀ w ∈ ws, w.1 ≠ k) (d : Bool) : lastVal ws k d = d := by
  induction ws generalizing d with
  | nil => rfl
  | cons w ws ih =>
    rw [lastVal_cons, if_neg (h w (List.mem_cons_self ..))]
    exact ih (fun q hq => h q (List.mem_cons_of_mem _ hq)) d

theorem lastVal_of_all {α : Type} [DecidableEq α] {ws : List (α × Bool)} {k : α} {v : Bool}
    (htouch : ∃ w ∈ ws, w.1 = k) (hall : ∀ w ∈ ws, w.1 = k → w.2 = v) (d : Bool) :
    lastVal ws k d = v := by
  induction ws generalizing d with
  | nil =>
    rcases htouch with ⟨w, hw, _⟩
    exact absurd hw (List.not_mem_nil w)
  | cons w ws ih =>
    rw [lastVal_cons]
    by_cases hrest : ∃ q ∈ ws, q.1 = k
    · exact ih hrest (fun q hq => hall q (List.mem_cons_of_mem _ hq)) _
    · rcases htouch with ⟨q, hq, hqk⟩
      rcases List.mem_cons.mp hq with rfl | hq'
      · rw [if_pos hqk, lastVal_not_touch (fun r hr hrk => hrest ⟨r, hr, hrk⟩)]
        exact hall q (List.mem_cons_self ..) hqk
      · exact absurd ⟨q, hq', hqk⟩ hrest

theorem lastVal_const_of_touch {α : Type} [DecidableEq α] {ws : List (α × Bool)} {k : α}
    (htouch : ∃ w ∈ ws, w.1 = k) (d d' : Bool) : lastVal ws k d = lastVal ws k d' := by
  induction ws generalizing d d' with
  | nil =>
    rcases htouch with ⟨w, hw, _⟩
    exact absurd hw (List.not_mem_nil w)
  | cons w ws ih =>
    rw [lastVal_cons, lastVal_cons]
    by_cases hrest : ∃ q ∈ ws, q.1 = k
    · exact ih hrest _ _
    · rcases htouch with ⟨q, hq, hqk⟩
      rcases List.mem_cons.mp hq with rfl | hq'
      · rw [if_pos hqk, if_pos hqk]
      · exact absurd ⟨q, hq', hqk⟩ hrest

/-! ### `applyWrites` and `applySets` lemmas -/

theorem applyWrites_some {ws : List (Int × Bool)} {cells : List Bool}
    (h : ∀ w ∈ ws, 0 ≤ w.1 ∧ w.1 < (cells.length : Int)) :
    ∃ cs, applyWrites cells ws = some cs ∧ cs.length = cells.length ∧
      ∀ k : Nat, cs.getD k false = lastVal ws (k : Int) (cells.getD k false) := by
  induction ws generalizing cells with
  | nil => exact ⟨cells, rfl, rfl, fun k => rfl⟩
  | cons w ws ih =>
    have hw := h w (List.mem_cons_self ..)
    have hset : setCellChecked cells w.1 w.2 = some (cells.set w.1.toNat w.2) := by
      rw [setCellChecked, if_pos hw]
    have hlen : (cells.set w.1.toNat w.2).length = cells.length := List.length_set ..
    obtain ⟨cs, hcs, hcslen, hval⟩ := @ih (cells.set w.1.toNat w.2)
      (fun q hq => by rw [hlen]; exact h q (List.mem_cons_of_mem _ hq))
    refine ⟨cs, ?_, by rw [hcslen, hlen], fun k => ?_⟩
    · simp only [applyWrites, hset]
      exact hcs
    · rw [hval k, lastVal_cons]
      congr 1
      by_cases hk : w.1 = (k : Int)
      · have hknat : w.1.toNat = k := by omega
        rw [if_pos hk, hknat, getD_set_self (by omega)]
      · have hknat : w.1.toNat ≠ k := by omega
        rw [if_neg hk, getD_set_ne hknat]

theorem applyWrites_none {ws : List (Int × Bool)} {cells : List Bool}
    (h : ∃ w ∈ ws, ¬(0 ≤ w.1 ∧ w.1 < (cells.length : Int))) :
    applyWrites cells ws = none := by
  induction ws generalizing cells with
  | nil =>
    rcases h with ⟨w, hw, _⟩
    exact absurd hw (List.not_mem_nil w)
  | cons w ws ih =>
    by_cases hw : 0 ≤ w.1 ∧ w.1 < (cells.length : Int)
    · have hset : setCellChecked cells w.1 w.2 = some (cells.set w.1.toNat w.2) := by
        rw [setCellChecked, if_pos hw]
      rcases h with ⟨q, hq, hqbad⟩
      rcases List.mem_cons.mp hq with rfl | hq'
      · exact absurd hw hqbad
      · simp only [applyWrites, hset]
        exact ih ⟨q, hq', by rwa [List.length_set]⟩
    · have hset : setCellChecked cells w.1 w.2 = none := by
        rw [setCellChecked, if_neg hw]
      simp only [applyWrites, hset]

theorem applySets_length (ws : List (Nat × Bool)) (cells : List Bool) :
    (applySets cells ws).length = cells.length := by
  induction ws generalizing cells with
  | nil => rfl
  | cons w ws ih =>
    show (applySets (cells.set w.1 w.2) ws).length = cells.length
    rw [ih, List.length_set]

theorem applySets_getD {ws : List (Nat × Bool)} {cells : List Bool}
    (h : ∀ w ∈ ws, w.1 < cells.length) (k : Nat) :
    (applySets cells ws).getD k false = lastVal ws k (cells.getD k false) := by
  induction ws generalizing cells with
  | nil => rfl
  | cons w ws ih =>
    show (applySets (cells.set w.1 w.2) ws).getD k false = _
    rw [ih (fun q hq => by rw [List.length_set]; exact h q (List.mem_cons_of_mem _ hq)),
      lastVal_cons]
    congr 1
    by_cases hk : w.1 = k
    · subst hk
      rw [if_pos rfl, getD_set_self (h w (List.mem_cons_self ..))]
    · rw [if_neg hk, getD_set_ne hk]

/-! ### Stamping lemmas -/

theorem stampLoop_eq_applyWrites {pat : List Bool} {pw ph : Nat} {x y : Int}
    {l : List (Nat × Nat)} (hread : ∀ p ∈ l, patternIndex pw p.2 p.1 < pat.length)
    (cells : List Bool) :
    stampLoop pat pw ph x y cells l = applyWrites cells (stampWrites pat pw ph x y l) := by
  induction l generalizing cells with
  | nil => rfl
  | cons p l ih =>
    have hr : getCellChecked pat (patternIndex pw p.2 p.1)
        = some (pat.getD (patternIndex pw p.2 p.1) false) := by
      rw [getCellChecked, if_pos (hread p (List.mem_cons_self ..))]
    simp only [stampLoop, stampWrites, List.map_cons, applyWrites, hr]
    cases hset : setCellChecked cells (stampTarget pw ph x y p)
        (pat.getD (patternIndex pw p.2 p.1) false) with
    | none => rfl
    | some cs => exact ih (fun q hq => hread q (List.mem_cons_of_mem _ hq)) cs

theorem stampLoop_none_of_bad_read {pat : List Bool} {pw ph : Nat} {x y : Int}
    {l : List (Nat × Nat)} (h : ∃ p ∈ l, ¬patternIndex pw p.2 p.1 < pat.length) :
    ∀ cells, stampLoop pat pw ph x y cells l = none := by
  induction l with
  | nil =>
    rcases h with ⟨p, hp, _⟩
    exact absurd hp (List.not_mem_nil p)
  | cons p l ih =>
    intro cells
    by_cases hr : patternIndex pw p.2 p.1 < pat.length
    · have hread : getCellChecked pat (patternIndex pw p.2 p.1)
          = some (pat.getD (patternIndex pw p.2 p.1) false) := by
        rw [getCellChecked, if_pos hr]
      rcases h with ⟨q, hq, hqbad⟩
      rcases List.mem_cons.mp hq with rfl | hq'
      · exact absurd hr hqbad
      · simp only [stampLoop, hread]
        cases hset : setCellChecked cells (stampTarget pw ph x y p)
            (pat.getD (patternIndex pw p.2 p.1) false) with
        | none => rfl
        | some cs => exact ih ⟨q, hq', hqbad⟩ cs
    · have hread : getCellChecked pat (patternIndex pw p.2 p.1) = none := by
        rw [getCellChecked, if_neg hr]
      simp only [stampLoop, hread]

theorem stampTarget_inj {pw ph : Nat} {x y : Int} (hpw : pw ≤ logicalScreenWidth)
    {p q : Nat × Nat} (hp : p.2 < pw) (hq : q.2 < pw)
    (h : stampTarget pw ph x y p = stampTarget pw ph x y q) : p = q := by
  obtain ⟨i, j⟩ := p
  obtain ⟨i', j'⟩ := q
  simp only [stampTarget, gridIndex] at h
  simp only at hp hq
  have hpw' : pw ≤ 640 := hpw
  have hW : (logicalScreenWidth : Int) = 640 := rfl
  rw [hW] at h
  have hcomp : i = i' ∧ j = j' := by
    have h' : (y + i - ph) * 640 + (x + j - pw) = (y + i' - ph) * 640 + (x + j' - pw) := h
    ring_nf at h'
    omega
  rw [hcomp.1, hcomp.2]


/-- C1 (amended): stamping writes buffer cell `(j, i)` to the flat grid index
`(anchorY + i - bufferHeight)*width + (anchorX + j - bufferWidth)` with no
clipping.  The stamp panics (returns `none`) exactly when some target flat
index lies outside `[0, width*height)`; when it succeeds, the grid keeps its
length, every flat index that is no loop iteration's target is unchanged, and
every target flat index holds the corresponding buffer value — including
targets whose x-coordinate is off-grid but whose flat index aliases into
another row (such writes are performed, not dropped). -/
theorem stamp_unclipped_characterization (cells pat : List Bool) (pw ph : Nat) (x y : Int)
    (hpat : pat.length = ph * pw) (hpw : pw ≤ logicalScreenWidth) :
    (stamp cells pat pw ph x y = none ↔
      ∃ i, i < ph ∧ ∃ j, j < pw ∧
        ¬(0 ≤ gridIndex (x + j - pw) (y + i - ph) ∧
          gridIndex (x + j - pw) (y + i - ph) < (cells.length : Int))) ∧
    (∀ cs, stamp cells pat pw ph x y = some cs →
      cs.length = cells.length ∧
      (∀ k : Nat,
        (∀ i, i < ph → ∀ j, j < pw → (k : Int) ≠ gridIndex (x + j - pw) (y + i - ph)) →
        cs.getD k false = cells.getD k false) ∧
      (∀ i, i < ph → ∀ j, j < pw →
        cs.getD (gridIndex (x + j - pw) (y + i - ph)).toNat false
          = pat.getD (patternIndex pw j i) false)) := by
  have hread : ∀ p ∈ indexPairs ph pw, patternIndex pw p.2 p.1 < pat.length := by
    intro p hp
    rcases mem_indexPairs.mp hp with ⟨h1, h2⟩
    rw [hpat]
    exact index_lt h2 h1
  have heq : stamp cells pat pw ph x y
      = applyWrites cells (stampWrites pat pw ph x y (indexPairs ph pw)) :=
    stampLoop_eq_applyWrites hread cells
  by_cases hgood : ∀ p ∈ indexPairs ph pw,
      0 ≤ stampTarget pw ph x y p ∧ stampTarget pw ph x y p < (cells.length : Int)
  · have hwsgood : ∀ w ∈ stampWrites pat pw ph x y (indexPairs ph pw),
        0 ≤ w.1 ∧ w.1 < (cells.length : Int) := by
      intro w hw
      rcases List.mem_map.mp hw with ⟨p, hp, rfl⟩
      exact hgood p hp
    obtain ⟨cs0, hcs0, hlen0, hval0⟩ := applyWrites_some hwsgood
    have hsome : stamp cells pat pw ph x y = some cs0 := heq.trans hcs0
    constructor
    · rw [hsome]
      simp only [reduceCtorEq, false_iff]
      rintro ⟨i, hi, j, hj, hbad⟩
      exact hbad (hgood (i, j) (mem_indexPairs.mpr ⟨hi, hj⟩))
    · intro cs hcs
      rw [hsome] at hcs
      obtain rfl : cs0 = cs := Option.some.inj hcs
      refine ⟨hlen0, fun k hk => ?_, fun i hi j hj => ?_⟩
      · rw [hval0 k]
        refine lastVal_not_touch (fun w hw => ?_) _
        rcases List.mem_map.mp hw with ⟨p, hp, rfl⟩
        rcases mem_indexPairs.mp hp with ⟨h1, h2⟩
        exact fun hkey => hk p.1 h1 p.2 h2 hkey.symm
      · have hkey := hgood (i, j) (mem_indexPairs.mpr ⟨hi, hj⟩)
        have hcast : ((stampTarget pw ph x y (i, j)).toNat : Int)
            = stampTarget pw ph x y (i, j) := by omega
        show cs0.getD (stampTarget pw ph x y (i, j)).toNat false
          = pat.getD (patternIndex pw j i) false
        rw [hval0 ((stampTarget pw ph x y (i, j)).toNat)]
        rw [show lastVal (stampWrites pat pw ph x y (indexPairs ph pw))
            (((stampTarget pw ph x y (i, j)).toNat : Nat) : Int)
            (cells.getD (stampTarget pw ph x y (i, j)).toNat false)
          = lastVal (stampWrites pat pw ph x y (indexPairs ph pw))
            (stampTarget pw ph x y (i, j))
            (cells.getD (stampTarget pw ph x y (i, j)).toNat false) from by rw [hcast]]
        have hmem : (fun p : Nat × Nat =>
              (stampTarget pw ph x y p, pat.getD (patternIndex pw p.2 p.1) false)) (i, j)
            ∈ stampWrites pat pw ph x y (indexPairs ph pw) :=
          List.mem_map_of_mem _ (mem_indexPairs.mpr ⟨hi, hj⟩)
        refine lastVal_of_all ⟨_, hmem, rfl⟩ (fun w hw hwk => ?_) _
        rcases List.mem_map.mp hw with ⟨p, hp, rfl⟩
        rcases mem_indexPairs.mp hp with ⟨h1, h2⟩
        have hp' : p = (i, j) := stampTarget_inj hpw h2 hj hwk
        rw [hp']
  · simp only [not_forall, Classical.not_imp] at hgood
    rcases hgood with ⟨p, hp, hbad⟩
    have hnone : stamp cells pat pw ph x y = none := by
      rw [heq]
      exact applyWrites_none ⟨_, List.mem_map_of_mem _ hp, hbad⟩
    rcases mem_indexPairs.mp hp with ⟨h1, h2⟩
    constructor
    · rw [hnone]
      simp only [true_iff]
      exact ⟨p.1, h1, p.2, h2, hbad⟩
    · intro cs hcs
      rw [hnone] at hcs
      cases hcs

/-- C1 counterexample: the claim asserts out-of-grid writes are silently
dropped with no runtime error for any anchor, but stamping the startup 3x3
glider at anchor `(0, 0)` makes its first write target flat index
`gridIndex (-3) (-3) = -1923`, and the unchecked Go slice write panics
(modeled as `none`) instead of dropping the write. -/
theorem stamp_clip_counterexample :
    stamp initCells gliderState.pattern gliderState.patternWidth gliderState.patternHeight 0 0
      = none := rfl

/-- Witness for C1 (amended): the hypotheses hold for the startup glider
buffer, and the characterization applies at anchor `(100, 100)`. -/
theorem stamp_unclipped_witness :
    (gliderState.pattern.length = 3 * 3 ∧ 3 ≤ logicalScreenWidth) ∧
    ((stamp initCells gliderState.pattern 3 3 100 100 = none ↔
      ∃ i : Nat, i < 3 ∧ ∃ j : Nat, j < 3 ∧
        ¬(0 ≤ gridIndex (100 + j - 3) (100 + i - 3) ∧
          gridIndex (100 + j - 3) (100 + i - 3) < (initCells.length : Int))) ∧
    (∀ cs, stamp initCells gliderState.pattern 3 3 100 100 = some cs →
      cs.length = initCells.length ∧
      (∀ k : Nat,
        (∀ i : Nat, i < 3 → ∀ j : Nat, j < 3 →
          (k : Int) ≠ gridIndex (100 + j - 3) (100 + i - 3)) →
        cs.getD k false = initCells.getD k false) ∧
      (∀ i : Nat, i < 3 → ∀ j : Nat, j < 3 →
        cs.getD (gridIndex (100 + j - 3) (100 + i - 3)).toNat false
          = gliderState.pattern.getD (patternIndex 3 j i) false))) :=
  ⟨⟨rfl, by decide⟩,
    stamp_unclipped_characterization initCells gliderState.pattern 3 3 100 100 rfl (by decide)⟩

/-- C5: stamping the same buffer at the same anchor twice in succession yields
exactly the state of stamping once — placement overwrites target cells with
the buffer's values, so a repeated stamp is idempotent (and when the single
stamp panics, so does the pair). -/
theorem stamp_overwrite_idempotent (cells pat : List Bool) (pw ph : Nat) (x y : Int) :
    (stamp cells pat pw ph x y).bind (fun cs => stamp cs pat pw ph x y)
      = stamp cells pat pw ph x y := by
  by_cases hread : ∀ p ∈ indexPairs ph pw, patternIndex pw p.2 p.1 < pat.length
  · have heq : ∀ gs : List Bool, stamp gs pat pw ph x y
        = applyWrites gs (stampWrites pat pw ph x y (indexPairs ph pw)) :=
      fun gs => stampLoop_eq_applyWrites hread gs
    by_cases hgood : ∀ p ∈ indexPairs ph pw,
        0 ≤ stampTarget pw ph x y p ∧ stampTarget pw ph x y p < (cells.length : Int)
    · have hwsgood : ∀ w ∈ stampWrites pat pw ph x y (indexPairs ph pw),
          0 ≤ w.1 ∧ w.1 < (cells.length : Int) := by
        intro w hw
        rcases List.mem_map.mp hw with ⟨p, hp, rfl⟩
        exact hgood p hp
      obtain ⟨cs, hcs, hlen, hval⟩ := applyWrites_some hwsgood
      obtain ⟨cs2, hcs2, hlen2, hval2⟩ :=
        @applyWrites_some (stampWrites pat pw ph x y (indexPairs ph pw)) cs
          (fun w hw => by rw [hlen]; exact hwsgood w hw)
      have hc : stamp cells pat pw ph x y = some cs := (heq cells).trans hcs
      have hc2 : stamp cs pat pw ph x y = some cs2 := (heq cs).trans hcs2
      have hcs2eq : cs2 = cs := by
        apply list_eq_of_getD (by rw [hlen2, hlen])
        intro k
        rw [hval2 k]
        by_cases htouch : ∃ w ∈ stampWrites pat pw ph x y (indexPairs ph pw), w.1 = (k : Int)
        · rw [lastVal_const_of_touch htouch (cs.getD k false) (cells.getD k false), ← hval k]
        · exact lastVal_not_touch (fun w hw hk => htouch ⟨w, hw, hk⟩) _
      rw [hc]
      show stamp cs pat pw ph x y = some cs
      rw [hc2, hcs2eq]
    · simp only [not_forall, Classical.not_imp] at hgood
      rcases hgood with ⟨p, hp, hbad⟩
      have hc : stamp cells pat pw ph x y = none := by
        rw [heq cells]
        exact applyWrites_none ⟨_, List.mem_map_of_mem _ hp, hbad⟩
      rw [hc]
      rfl
  · simp only [not_forall, Classical.not_imp] at hread
    rcases hread with ⟨p, hp, hbad⟩
    have hc : stamp cells pat pw ph x y = none :=
      stampLoop_none_of_bad_read ⟨p, hp, hbad⟩ cells
    rw [hc]
    rfl

/-! ### Neighbor-count and advance lemmas -/

theorem foldl_count_step {α : Type} (P : α → Prop) [DecidablePred P] (l : List α) (n : Nat) :
    l.foldl (fun n d => if P d then n + 1 else n) n
      = n + (l.map (fun d => (decide (P d)).toNat)).sum := by
  induction l generalizing n with
  | nil => simp
  | cons a l ih =>
    rw [List.foldl_cons, ih, List.map_cons, List.sum_cons]
    by_cases h : P a
    · simp only [h, if_true, decide_True, Bool.toNat_true]
      omega
    · simp only [h, if_false, decide_False, Bool.toNat_false]
      omega

theorem guard_decide_eq (cells : List Bool) (j i dx dy : Int)
    (hne : ¬(j + dx = j ∧ i + dy = i)) :
    (decide (neighborGuard cells j i (dy, dx))).toNat
      = (liveAt cells (j + dx) (i + dy)).toNat := by
  unfold liveAt
  by_cases hb : 0 ≤ j + dx ∧ j + dx < (logicalScreenWidth : Int) ∧
      0 ≤ i + dy ∧ i + dy < (logicalScreenHeight : Int)
  · cases hc : cells.getD (gridIndex (j + dx) (i + dy)).toNat false
    · have hg : ¬neighborGuard cells j i (dy, dx) := by
        unfold neighborGuard
        dsimp only
        rintro ⟨-, -, -, -, -, hcc⟩
        rw [hc] at hcc
        cases hcc
      rw [decide_eq_false hg, Bool.and_false]
    · have hg : neighborGuard cells j i (dy, dx) := by
        unfold neighborGuard
        dsimp only
        exact ⟨hb.1, hb.2.1, hb.2.2.1, hb.2.2.2, hne, hc⟩
      rw [decide_eq_true hg, Bool.and_true, decide_eq_true hb]
  · have hg : ¬neighborGuard cells j i (dy, dx) := by
      unfold neighborGuard
      dsimp only
      rintro ⟨h1, h2, h3, h4, -, -⟩
      exact hb ⟨h1, h2, h3, h4⟩
    rw [decide_eq_false hg, decide_eq_false hb, Bool.false_and]

theorem guard_center_zero (cells : List Bool) (j i : Int) :
    (decide (neighborGuard cells j i (0, 0))).toNat = 0 := by
  have h : ¬neighborGuard cells j i (0, 0) := by
    unfold neighborGuard
    rintro ⟨-, -, -, -, hne, -⟩
    exact hne ⟨by omega, by omega⟩
  rw [decide_eq_false h]
  rfl

theorem neighborCount_eq_spec (cells : List Bool) (j i : Int) :
    neighborCount cells j i = specLiveNeighbors cells j i := by
  unfold neighborCount
  rw [foldl_count_step]
  simp only [neighborOffsets, List.map_cons, List.map_nil, List.sum_cons, List.sum_nil]
  rw [guard_decide_eq cells j i (-1) (-1) (by omega), guard_decide_eq cells j i 0 (-1) (by omega),
    guard_decide_eq cells j i 1 (-1) (by omega), guard_decide_eq cells j i (-1) 0 (by omega),
    guard_center_zero, guard_decide_eq cells j i 1 0 (by omega),
    guard_decide_eq cells j i (-1) 1 (by omega), guard_decide_eq cells j i 0 1 (by omega),
    guard_decide_eq cells j i 1 1 (by omega)]
  unfold specLiveNeighbors
  have e1 : j + (-1 : Int) = j - 1 := by omega
  have e2 : i + (-1 : Int) = i - 1 := by omega
  have e3 : j + (0 : Int) = j := by omega
  have e4 : i + (0 : Int) = i := by omega
  rw [e1, e2, e3, e4]
  omega

theorem flatten_length_uniform {rows : List (List Bool)} {w : Nat}
    (hw : ∀ r ∈ rows, r.length = w) : rows.flatten.length = rows.length * w := by
  induction rows with
  | nil => simp
  | cons r rows ih =>
    rw [List.flatten_cons, List.length_append,
      ih (fun q hq => hw q (List.mem_cons_of_mem _ hq)), hw r (List.mem_cons_self ..),
      List.length_cons]
    ring

theorem getD_flatten_uniform {rows : List (List Bool)} {w : Nat}
    (hw : ∀ r ∈ rows, r.length = w) (i j : Nat) (hj : j < w) :
    rows.flatten.getD (i * w + j) false = (rows.getD i []).getD j false := by
  induction rows generalizing i with
  | nil =>
    simp [List.getD_eq_getElem?_getD]
  | cons r rows ih =>
    have hr : r.length = w := hw r (List.mem_cons_self ..)
    cases i with
    | zero =>
      rw [List.flatten_cons]
      simp only [Nat.zero_mul, Nat.zero_add]
      rw [List.getD_eq_getElem?_getD, List.getElem?_append_left (by omega),
        ← List.getD_eq_getElem?_getD]
      rfl
    | succ i =>
      rw [List.flatten_cons]
      have harith : (i + 1) * w + j = r.length + (i * w + j) := by rw [hr]; ring
      rw [harith, List.getD_eq_getElem?_getD, List.getElem?_append_right (by omega)]
      have hsub : r.length + (i * w + j) - r.length = i * w + j := by omega
      rw [hsub, ← List.getD_eq_getElem?_getD,
        ih (fun q hq => hw q (List.mem_cons_of_mem _ hq)) i]
      rfl

theorem advance_getCell (cells : List Bool) {x y : Nat}
    (hx : x < logicalScreenWidth) (hy : y < logicalScreenHeight) :
    getCell (advance cells) x y = nextCellState cells (x : Int) (y : Int) := by
  unfold getCell advance
  rw [getD_flatten_uniform (w := logicalScreenWidth)
    (by
      intro r hr
      rcases List.mem_map.mp hr with ⟨a, -, rfl⟩
      simp) y x hx]
  have h1 : ∀ (rows : List (List Bool)) (r0 : List Bool), rows[y]? = some r0 →
      rows.getD y [] = r0 := by
    intro rows r0 h0
    rw [List.getD_eq_getElem?_getD, h0]
    rfl
  rw [h1 _ ((List.range logicalScreenWidth).map (fun (j : Nat) =>
      nextCellState cells (j : Int) (y : Int)))
    (by rw [List.getElem?_map, List.getElem?_range hy]; rfl)]
  rw [List.getD_eq_getElem?_getD, List.getElem?_map, List.getElem?_range hx]
  rfl

/-- C2: after `advance()`, each in-bounds cell is alive iff in the pre-advance
snapshot it was alive with 2 or 3 live in-bounds neighbors, or dead with
exactly 3; the neighbor count ranges only over the at most 8 surrounding
in-bounds coordinates (`specLiveNeighbors`, stated from the spec wording), and
the whole new generation is a function of the old snapshot of full size. -/
theorem advance_life_rule (cells : List Bool)
    (_hlen : cells.length = logicalScreenHeight * logicalScreenWidth)
    (x y : Nat) (hx : x < logicalScreenWidth) (hy : y < logicalScreenHeight) :
    (advance cells).length = logicalScreenHeight * logicalScreenWidth ∧
    (getCell (advance cells) x y = true ↔
      ((getCell cells x y = true ∧
          (specLiveNeighbors cells (x : Int) (y : Int) = 2 ∨
           specLiveNeighbors cells (x : Int) (y : Int) = 3)) ∨
       (getCell cells x y = false ∧ specLiveNeighbors cells (x : Int) (y : Int) = 3))) := by
  constructor
  · unfold advance
    rw [flatten_length_uniform (w := logicalScreenWidth)
      (by
        intro r hr
        rcases List.mem_map.mp hr with ⟨a, -, rfl⟩
        simp)]
    simp
  · rw [advance_getCell cells hx hy]
    unfold nextCellState
    rw [neighborCount_eq_spec]
    have hcell : cells.getD (gridIndex (x : Int) (y : Int)).toNat false = getCell cells x y := by
      unfold gridIndex getCell
      congr 1
    rw [hcell]
    cases hgc : getCell cells x y with
    | true =>
      constructor
      · intro halive
        by_cases hn : specLiveNeighbors cells (x : Int) (y : Int) < 2 ∨
            specLiveNeighbors cells (x : Int) (y : Int) > 3
        · rw [if_pos rfl, if_pos hn] at halive
          cases halive
        · left
          exact ⟨rfl, by omega⟩
      · rintro (⟨-, hn⟩ | ⟨hdead, -⟩)
        · rw [if_pos rfl, if_neg (by omega)]
        · cases hdead
    | false =>
      constructor
      · intro halive
        by_cases hn : specLiveNeighbors cells (x : Int) (y : Int) = 3
        · right
          exact ⟨rfl, hn⟩
        · rw [if_neg (by simp), if_neg hn] at halive
          cases halive
      · rintro (⟨hlive, -⟩ | ⟨-, hn⟩)
        · cases hlive
        · rw [if_neg (by simp), if_pos hn]

/-- Witness for C2 at the zeroed startup grid and the corner cell. -/
theorem advance_life_rule_witness :
    (initCells.length = logicalScreenHeight * logicalScreenWidth ∧
      0 < logicalScreenWidth ∧ 0 < logicalScreenHeight) ∧
    ((advance initCells).length = logicalScreenHeight * logicalScreenWidth ∧
      (getCell (advance initCells) 0 0 = true ↔
        ((getCell initCells 0 0 = true ∧
            (specLiveNeighbors initCells 0 0 = 2 ∨ specLiveNeighbors initCells 0 0 = 3)) ∨
         (getCell initCells 0 0 = false ∧ specLiveNeighbors initCells 0 0 = 3)))) :=
  ⟨⟨by simp [initCells], by decide, by decide⟩,
    advance_life_rule initCells (by simp [initCells]) 0 0 (by decide) (by decide)⟩

/-! ### Pattern-buffer lemmas -/

theorem mem_copyWrites {old : List Bool} {ow oh w h : Nat} {e : Nat × Bool} :
    e ∈ copyWrites old ow oh w h ↔
      ∃ i j, i < oh ∧ j < ow ∧ i < h ∧ j < w ∧
        e = (i * w + j, old.getD (i * ow + j) false) := by
  unfold copyWrites
  rw [List.mem_filterMap]
  constructor
  · rintro ⟨p, hp, he⟩
    rcases mem_indexPairs.mp hp with ⟨h1, h2⟩
    by_cases hc : p.1 < h ∧ p.2 < w
    · rw [if_pos hc] at he
      exact ⟨p.1, p.2, h1, h2, hc.1, hc.2, (Option.some.inj he).symm⟩
    · rw [if_neg hc] at he
      cases he
  · rintro ⟨i, j, h1, h2, h3, h4, rfl⟩
    exact ⟨(i, j), mem_indexPairs.mpr ⟨h1, h2⟩, by rw [if_pos ⟨h3, h4⟩]⟩

/-- C3: after `resize(newWidth, newHeight, true)` (`initPattern` with
`keepPrevious`), a cell `(x, y)` of the new buffer is alive iff it lies in the
overlap `x < min(oldWidth, newWidth)`, `y < min(oldHeight, newHeight)` (new
dimensions taken after clamping) and was alive in the old buffer; every cell
outside the overlap is dead. -/
theorem initPattern_preserve_overlap (g : PatternState) (nw nh : Int)
    (hwf : g.pattern.length = g.patternHeight * g.patternWidth)
    (x y : Nat)
    (hx : x < (initPattern g nw nh true).patternWidth)
    (hy : y < (initPattern g nw nh true).patternHeight) :
    (getPattern (initPattern g nw nh true) x y = true ↔
      x < min g.patternWidth (initPattern g nw nh true).patternWidth ∧
      y < min g.patternHeight (initPattern g nw nh true).patternHeight ∧
      getPattern g x y = true) := by
  rcases g with ⟨ow, oh, old⟩
  simp only at hwf
  obtain ⟨W, hWv⟩ : ∃ W, (if nw < 1 then 1 else nw).toNat = W := ⟨_, rfl⟩
  obtain ⟨H, hHv⟩ : ∃ H, (if nh < 1 then 1 else nh).toNat = H := ⟨_, rfl⟩
  have hW : (initPattern ⟨ow, oh, old⟩ nw nh true).patternWidth = W := hWv
  have hH : (initPattern ⟨ow, oh, old⟩ nw nh true).patternHeight = H := hHv
  have hP : (initPattern ⟨ow, oh, old⟩ nw nh true).pattern
      = applySets (List.replicate (H * W) false) (copyWrites old ow oh W H) := by
    show applySets (List.replicate ((if nh < 1 then 1 else nh).toNat
        * (if nw < 1 then 1 else nw).toNat) false)
      (copyWrites old ow oh (if nw < 1 then 1 else nw).toNat (if nh < 1 then 1 else nh).toNat)
      = _
    rw [hWv, hHv]
  rw [hW] at hx
  rw [hH] at hy
  have hkeys : ∀ e ∈ copyWrites old ow oh W H, e.1 < (List.replicate (H * W) false).length := by
    intro e he
    rcases mem_copyWrites.mp he with ⟨i, j, -, -, h3, h4, rfl⟩
    rw [List.length_replicate]
    exact index_lt h4 h3
  have hget : getPattern (initPattern ⟨ow, oh, old⟩ nw nh true) x y
      = lastVal (copyWrites old ow oh W H) (y * W + x) false := by
    unfold getPattern patternIndex
    rw [hP, hW, applySets_getD hkeys, getD_replicate_false]
  have hgold : getPattern ⟨ow, oh, old⟩ x y = old.getD (y * ow + x) false := rfl
  rw [hget, hW, hH, hgold]
  by_cases hov : x < ow ∧ y < oh
  · have hmem : ((y * W + x : Nat), old.getD (y * ow + x) false)
        ∈ copyWrites old ow oh W H :=
      mem_copyWrites.mpr ⟨y, x, hov.2, hov.1, hy, hx, rfl⟩
    have hall : ∀ e ∈ copyWrites old ow oh W H, e.1 = y * W + x →
        e.2 = old.getD (y * ow + x) false := by
      intro e he hek
      rcases mem_copyWrites.mp he with ⟨i, j, h1, h2, h3, h4, rfl⟩
      obtain ⟨rfl, rfl⟩ := rowcol_inj h4 hx hek
      rfl
    rw [lastVal_of_all ⟨_, hmem, rfl⟩ hall false]
    constructor
    · intro hval
      exact ⟨lt_min_iff.mpr ⟨hov.1, hx⟩, lt_min_iff.mpr ⟨hov.2, hy⟩, hval⟩
    · rintro ⟨-, -, hval⟩
      exact hval
  · have hnt : ∀ e ∈ copyWrites old ow oh W H, e.1 ≠ y * W + x := by
      intro e he hek
      rcases mem_copyWrites.mp he with ⟨i, j, h1, h2, h3, h4, hpair⟩
      have hkey : i * W + j = y * W + x := by
        have := congrArg Prod.fst hpair
        simp only at this
        omega
      obtain ⟨rfl, rfl⟩ := rowcol_inj h4 hx hkey
      exact hov ⟨h2, h1⟩
    rw [lastVal_not_touch hnt false]
    constructor
    · intro hfalse
      cases hfalse
    · rintro ⟨hm1, hm2, -⟩
      exact absurd ⟨(lt_min_iff.mp hm1).1, (lt_min_iff.mp hm2).1⟩ hov

/-- Witness for C3: the spec's own example — a 3x3 buffer alive only at
`(1, 1)`, resized to 5x5 with preservation. -/
theorem initPattern_preserve_overlap_witness :
    (([false, false, false, false, true, false, false, false, false] : List Bool).length = 3 * 3 ∧
      (1 : Nat) < (initPattern ⟨3, 3, [false, false, false, false, true, false, false, false,
        false]⟩ 5 5 true).patternWidth ∧
      (1 : Nat) < (initPattern ⟨3, 3, [false, false, false, false, true, false, false, false,
        false]⟩ 5 5 true).patternHeight) ∧
    (getPattern (initPattern ⟨3, 3, [false, false, false, false, true, false, false, false,
        false]⟩ 5 5 true) 1 1 = true ↔
      1 < min 3 (initPattern ⟨3, 3, [false, false, false, false, true, false, false, false,
        false]⟩ 5 5 true).patternWidth ∧
      1 < min 3 (initPattern ⟨3, 3, [false, false, false, false, true, false, false, false,
        false]⟩ 5 5 true).patternHeight ∧
      getPattern ⟨3, 3, [false, false, false, false, true, false, false, false, false]⟩ 1 1
        = true) :=
  ⟨⟨rfl, by decide, by decide⟩,
    initPattern_preserve_overlap ⟨3, 3, [false, false, false, false, true, false, false, false,
      false]⟩ 5 5 rfl 1 1 (by decide) (by decide)⟩

/-- C4: the pattern buffer's dimensions are at least 1 after construction and
after every operation: `initPattern` clamps requested dimensions below 1 up to
1 (in particular `resize(0,0,_)` yields a 1x1 buffer), `togglePattern` leaves
dimensions unchanged, and the startup glider buffer is 3x3. -/
theorem pattern_dims_ge_one :
    (∀ (g : PatternState) (nw nh : Int) (keep : Bool),
        1 ≤ (initPattern g nw nh keep).patternWidth ∧
        1 ≤ (initPattern g nw nh keep).patternHeight) ∧
    (∀ (g : PatternState) (keep : Bool),
        (initPattern g 0 0 keep).patternWidth = 1 ∧
        (initPattern g 0 0 keep).patternHeight = 1 ∧
        (initPattern g 0 0 keep).pattern.length = 1) ∧
    (∀ (g : PatternState) (x y : Nat),
        (togglePattern g x y).patternWidth = g.patternWidth ∧
        (togglePattern g x y).patternHeight = g.patternHeight) ∧
    (∀ g : PatternState,
        (initGlider g).patternWidth = 3 ∧ (initGlider g).patternHeight = 3) := by
  refine ⟨fun g nw nh keep => ⟨?_, ?_⟩, fun g keep => ⟨rfl, rfl, ?_⟩,
    fun g x y => ⟨rfl, rfl⟩, fun g => ⟨rfl, rfl⟩⟩
  · have hW : (initPattern g nw nh keep).patternWidth = (if nw < 1 then 1 else nw).toNat := rfl
    rw [hW]
    split
    · omega
    · omega
  · have hH : (initPattern g nw nh keep).patternHeight = (if nh < 1 then 1 else nh).toNat := rfl
    rw [hH]
    split
    · omega
    · omega
  · have hP : (initPattern g 0 0 keep).pattern
        = if keep then applySets (List.replicate (1 * 1) false)
            (copyWrites g.pattern g.patternWidth g.patternHeight 1 1)
          else List.replicate (1 * 1) false := rfl
    rw [hP]
    cases keep
    · simp
    · simp only [if_true]
      rw [applySets_length, List.length_replicate]

/-- C8: the clear-pattern command (`Delete` key:
`initPattern(patternWidth, patternHeight, false)`) sets every cell dead and
leaves the buffer's dimensions exactly as they were. -/
theorem clearPattern_spec (g : PatternState)
    (hw : 1 ≤ g.patternWidth) (hh : 1 ≤ g.patternHeight) :
    (initPattern g g.patternWidth g.patternHeight false).patternWidth = g.patternWidth ∧
    (initPattern g g.patternWidth g.patternHeight false).patternHeight = g.patternHeight ∧
    ∀ x y : Nat, getPattern (initPattern g g.patternWidth g.patternHeight false) x y = false := by
  have hW : (initPattern g g.patternWidth g.patternHeight false).patternWidth
      = (if (g.patternWidth : Int) < 1 then 1 else (g.patternWidth : Int)).toNat := rfl
  have hH : (initPattern g g.patternWidth g.patternHeight false).patternHeight
      = (if (g.patternHeight : Int) < 1 then 1 else (g.patternHeight : Int)).toNat := rfl
  have hcw : (if (g.patternWidth : Int) < 1 then 1 else (g.patternWidth : Int))
      = (g.patternWidth : Int) := by
    rw [if_neg]
    omega
  have hch : (if (g.patternHeight : Int) < 1 then 1 else (g.patternHeight : Int))
      = (g.patternHeight : Int) := by
    rw [if_neg]
    omega
  refine ⟨?_, ?_, fun x y => ?_⟩
  · rw [hW, hcw]
    omega
  · rw [hH, hch]
    omega
  · have hP : (initPattern g g.patternWidth g.patternHeight false).pattern
        = List.replicate ((if (g.patternHeight : Int) < 1 then 1
              else (g.patternHeight : Int)).toNat
            * (if (g.patternWidth : Int) < 1 then 1 else (g.patternWidth : Int)).toNat)
          false := rfl
    unfold getPattern
    rw [hP]
    exact getD_replicate_false

/-- Witness for C8 at the startup glider buffer. -/
theorem clearPattern_spec_witness :
    (1 ≤ gliderState.patternWidth ∧ 1 ≤ gliderState.patternHeight) ∧
    ((initPattern gliderState gliderState.patternWidth gliderState.patternHeight
        false).patternWidth = gliderState.patternWidth ∧
      (initPattern gliderState gliderState.patternWidth gliderState.patternHeight
        false).patternHeight = gliderState.patternHeight ∧
      ∀ x y : Nat, getPattern (initPattern gliderState gliderState.patternWidth
        gliderState.patternHeight false) x y = false) :=
  ⟨⟨by decide, by decide⟩, clearPattern_spec gliderState (by decide) (by decide)⟩

/-- C9: toggling an in-range pattern cell twice restores exactly the previous
buffer, and a single toggle changes neither the dimensions nor any cell other
than the toggled one. -/
theorem toggle_involution (g : PatternState) (x y : Nat)
    (hx : x < g.patternWidth) (hy : y < g.patternHeight)
    (hwf : g.pattern.length = g.patternHeight * g.patternWidth) :
    togglePattern (togglePattern g x y) x y = g ∧
    (togglePattern g x y).patternWidth = g.patternWidth ∧
    (togglePattern g x y).patternHeight = g.patternHeight ∧
    (∀ u v : Nat, u < g.patternWidth → v < g.patternHeight → ¬(u = x ∧ v = y) →
      getPattern (togglePattern g x y) u v = getPattern g u v) := by
  rcases g with ⟨pw, ph, p⟩
  simp only at hwf hx hy
  have hidx : patternIndex pw x y < p.length := by
    rw [hwf]
    exact index_lt hx hy
  refine ⟨?_, rfl, rfl, fun u v hu hv hne => ?_⟩
  · have key : (p.set (patternIndex pw x y) (!(p.getD (patternIndex pw x y) false))).set
        (patternIndex pw x y)
        (!((p.set (patternIndex pw x y) (!(p.getD (patternIndex pw x y) false))).getD
            (patternIndex pw x y) false)) = p := by
      rw [getD_set_self hidx, Bool.not_not, List.set_set]
      exact set_getD_self hidx
    exact congrArg (PatternState.mk pw ph) key
  · show (p.set (patternIndex pw x y) (!(p.getD (patternIndex pw x y) false))).getD
        (patternIndex pw u v) false = p.getD (patternIndex pw u v) false
    apply getD_set_ne
    intro hek
    unfold patternIndex at hek
    obtain ⟨rfl, rfl⟩ := rowcol_inj hx hu hek
    exact hne ⟨rfl, rfl⟩

/-- Witness for C9 at cell `(1, 1)` of the startup glider buffer. -/
theorem toggle_involution_witness :
    ((1 : Nat) < gliderState.patternWidth ∧ (1 : Nat) < gliderState.patternHeight ∧
      gliderState.pattern.length = gliderState.patternHeight * gliderState.patternWidth) ∧
    (togglePattern (togglePattern gliderState 1 1) 1 1 = gliderState ∧
      (togglePattern gliderState 1 1).patternWidth = gliderState.patternWidth ∧
      (togglePattern gliderState 1 1).patternHeight = gliderState.patternHeight ∧
      (∀ u v : Nat, u < gliderState.patternWidth → v < gliderState.patternHeight →
        ¬(u = 1 ∧ v = 1) →
        getPattern (togglePattern gliderState 1 1) u v = getPattern gliderState u v)) :=
  ⟨⟨by decide, by decide, rfl⟩,
    toggle_involution gliderState 1 1 (by decide) (by decide) rfl⟩

/-! ### Tick gate and editor-scale lemmas -/

/-- C6: the grid is replaced by a new generation only when the simulation is
running and the elapsed time since the last advance is at least the configured
interval: whenever `active` is false or `timeDelta < speed*time.Millisecond`,
the tick leaves the cells untouched (and when both conditions hold the gate
performs exactly one `advance`). -/
theorem advance_gate_requires (active : Bool) (timeDelta speed : Int) (cells : List Bool)
    (h : active = false ∨ timeDelta < speed * timeMillisecond) :
    advanceGate active timeDelta speed cells = cells := by
  unfold advanceGate
  rw [if_neg]
  rintro ⟨ha, hle⟩
  rcases h with h | h
  · rw [h] at ha
    cases ha
  · omega

/-- Witness for C6: a paused tick and a too-early running tick both leave the
grid untouched. -/
theorem advance_gate_requires_witness :
    ((false = false ∨ (0 : Int) < 25 * timeMillisecond) ∧
      advanceGate false 0 25 initCells = initCells) ∧
    ((true = false ∨ (10 : Int) < 25 * timeMillisecond) ∧
      advanceGate true 10 25 initCells = initCells) :=
  ⟨⟨Or.inl rfl, advance_gate_requires false 0 25 initCells (Or.inl rfl)⟩,
    ⟨Or.inr (by decide), advance_gate_requires true 10 25 initCells (Or.inr (by decide))⟩⟩

theorem computeScaleLoop_first_fit (bw bh maxW maxH step : Int)
    (hbw : 1 ≤ bw) (hbh : 1 ≤ bh) (hmw : 0 ≤ maxW) (hmh : 0 ≤ maxH) (hstep : 1 ≤ step) :
    ∀ (fuel : Nat) (scale : Int), scale.toNat < fuel →
      ∃ k : Nat, computeScaleLoop bw bh maxW maxH step fuel scale
          = some (scale - k * step) ∧
        (bw * (scale - k * step) ≤ maxW ∧ bh * (scale - k * step) ≤ maxH) ∧
        ∀ k' : Nat, k' < k →
          ¬(bw * (scale - k' * step) ≤ maxW ∧ bh * (scale - k' * step) ≤ maxH) := by
  intro fuel
  induction fuel with
  | zero =>
    intro scale hs
    omega
  | succ f ih =>
    intro scale hs
    by_cases hfit : bw * scale ≤ maxW ∧ bh * scale ≤ maxH
    · refine ⟨0, ?_, ?_, fun k' hk' => by omega⟩
      · have hc : computeScaleLoop bw bh maxW maxH step (f + 1) scale = some scale := by
          unfold computeScaleLoop
          rw [if_pos hfit]
        rw [hc]
        norm_num
      · have h0 : scale - ((0 : Nat) : Int) * step = scale := by
          push_cast
          ring
        rw [h0]
        exact hfit
    · have hpos : 1 ≤ scale := by
        by_contra hneg
        push_neg at hneg
        apply hfit
        have h1 : 0 ≤ bw * (-scale) := mul_nonneg (by omega) (by omega)
        have h2 : 0 ≤ bh * (-scale) := mul_nonneg (by omega) (by omega)
        constructor
        · nlinarith
        · nlinarith
      obtain ⟨k, hloop, hfitk, hmin⟩ := ih (scale - step) (by omega)
      have he : ∀ m : Nat, scale - ((m + 1 : Nat) : Int) * step
          = scale - step - (m : Int) * step := by
        intro m
        push_cast
        ring
      refine ⟨k + 1, ?_, ?_, ?_⟩
      · have hstep1 : computeScaleLoop bw bh maxW maxH step (f + 1) scale
            = computeScaleLoop bw bh maxW maxH step f (scale - step) := by
          show (if bw * scale ≤ maxW ∧ bh * scale ≤ maxH then some scale
              else computeScaleLoop bw bh maxW maxH step f (scale - step))
            = computeScaleLoop bw bh maxW maxH step f (scale - step)
          rw [if_neg hfit]
        rw [hstep1, hloop, he k]
      · rw [he k]
        exact hfitk
      · intro k' hk'
        cases k' with
        | zero =>
          intro hcon
          apply hfit
          have h0 : scale - ((0 : Nat) : Int) * step = scale := by
            push_cast
            ring
          rwa [h0] at hcon
        | succ m =>
          intro hcon
          apply hmin m (by omega)
          rwa [he m] at hcon

/-- C7: the scale shrink loop is a pure function of its inputs that returns
the largest scale at most `base`, among `base` and its successive decrements
by `step`, at which both `bw*scale ≤ maxW` and `bh*scale ≤ maxH` hold — it
stops at the first fitting decrement and enforces no lower bound on the
result. -/
theorem computeScale_first_fit (bw bh maxW maxH base step : Int)
    (hbw : 1 ≤ bw) (hbh : 1 ≤ bh) (hmw : 0 ≤ maxW) (hmh : 0 ≤ maxH) (hstep : 1 ≤ step) :
    ∃ k : Nat, computeScaleLoop bw bh maxW maxH step (base.toNat + 1) base
        = some (base - k * step) ∧
      (bw * (base - k * step) ≤ maxW ∧ bh * (base - k * step) ≤ maxH) ∧
      ∀ k' : Nat, k' < k →
        ¬(bw * (base - k' * step) ≤ maxW ∧ bh * (base - k' * step) ≤ maxH) :=
  computeScaleLoop_first_fit bw bh maxW maxH step hbw hbh hmw hmh hstep (base.toNat + 1) base
    (by omega)

/-- Witness for C7: a 100x100 buffer against the 640x480 logical screen from
base scale 20 and step 5 — scales 20, 15, 10, 5 all overflow one bound, so the
loop returns 0. -/
theorem computeScale_first_fit_witness :
    ((1 : Int) ≤ 100 ∧ (1 : Int) ≤ 100 ∧ (0 : Int) ≤ 640 ∧ (0 : Int) ≤ 480 ∧ (1 : Int) ≤ 5) ∧
    ∃ k : Nat, computeScaleLoop 100 100 640 480 5 ((20 : Int).toNat + 1) 20
        = some ((20 : Int) - k * 5) ∧
      ((100 : Int) * (20 - k * 5) ≤ 640 ∧ (100 : Int) * (20 - k * 5) ≤ 480) ∧
      ∀ k' : Nat, k' < k →
        ¬((100 : Int) * (20 - k' * 5) ≤ 640 ∧ (100 : Int) * (20 - k' * 5) ≤ 480) :=
  ⟨⟨by norm_num, by norm_num, by norm_num, by norm_num, by norm_num⟩,
    computeScale_first_fit 100 100 640 480 20 5 (by norm_num) (by norm_num) (by norm_num)
      (by norm_num) (by norm_num)⟩

/-- C10: for every clamped pattern size (both dimensions at least 1), the
editor-scale shrink loop of `unnamed/part_000` — starting from scale 20 and
decrementing by 5 against the 640x480 logical screen — terminates, stopping at
the first value among 20, 15, 10, 5, 0 at which the panel fits, and the
resulting scale is never negative: scale 0 always satisfies the fit condition,
so arbitrarily large buffers yield scale 0. -/
theorem editor_scale_terminates_nonneg (nw nh : Int) (hw : 1 ≤ nw) (hh : 1 ≤ nh) :
    ∃ k : Nat, k ≤ 4 ∧
      computeScaleLoop nw nh (logicalScreenWidth : Int) (logicalScreenHeight : Int) 5
          (patternEditorScale.toNat + 1) patternEditorScale
        = some (patternEditorScale - k * 5) ∧
      0 ≤ patternEditorScale - (k : Int) * 5 ∧
      (nw * (patternEditorScale - (k : Int) * 5) ≤ (logicalScreenWidth : Int) ∧
       nh * (patternEditorScale - (k : Int) * 5) ≤ (logicalScreenHeight : Int)) ∧
      ∀ k' : Nat, k' < k →
        ¬(nw * (patternEditorScale - (k' : Int) * 5) ≤ (logicalScreenWidth : Int) ∧
          nh * (patternEditorScale - (k' : Int) * 5) ≤ (logicalScreenHeight : Int)) := by
  obtain ⟨k, hloop, hfit, hmin⟩ :=
    computeScaleLoop_first_fit nw nh (logicalScreenWidth : Int) (logicalScreenHeight : Int) 5
      hw hh (Int.natCast_nonneg _) (Int.natCast_nonneg _) (by norm_num)
      (patternEditorScale.toNat + 1) patternEditorScale (by omega)
  have hk4 : k ≤ 4 := by
    by_contra hk
    push_neg at hk
    apply hmin 4 (by omega)
    have h0 : patternEditorScale - ((4 : Nat) : Int) * 5 = 0 := by norm_num
    rw [h0, mul_zero, mul_zero]
    exact ⟨Int.natCast_nonneg _, Int.natCast_nonneg _⟩
  have hnonneg : 0 ≤ patternEditorScale - (k : Int) * 5 := by
    have h20 : patternEditorScale = 20 := rfl
    omega
  exact ⟨k, hk4, hloop, hnonneg, hfit, hmin⟩

/-- Witness for C10: a 1000x1000 buffer, far too large for any positive scale,
yields a non-negative terminating result. -/
theorem editor_scale_terminates_nonneg_witness :
    ((1 : Int) ≤ 1000 ∧ (1 : Int) ≤ 1000) ∧
    ∃ k : Nat, k ≤ 4 ∧
      computeScaleLoop 1000 1000 (logicalScreenWidth : Int) (logicalScreenHeight : Int) 5
          (patternEditorScale.toNat + 1) patternEditorScale
        = some (patternEditorScale - k * 5) ∧
      0 ≤ patternEditorScale - (k : Int) * 5 ∧
      ((1000 : Int) * (patternEditorScale - (k : Int) * 5) ≤ (logicalScreenWidth : Int) ∧
       (1000 : Int) * (patternEditorScale - (k : Int) * 5) ≤ (logicalScreenHeight : Int)) ∧
      ∀ k' : Nat, k' < k →
        ¬((1000 : Int) * (patternEditorScale - (k' : Int) * 5) ≤ (logicalScreenWidth : Int) ∧
          (1000 : Int) * (patternEditorScale - (k' : Int) * 5) ≤ (logicalScreenHeight : Int)) :=
  ⟨⟨by norm_num, by norm_num⟩,
    editor_scale_terminates_nonneg 1000 1000 (by norm_num) (by norm_num)⟩

end GameOfLife
